import Mathlib

/-!
Verification of `src/utils/csv_parser_utils.py` (cqube-csv-parser-service).

The Python source is shallowly embedded: pandas `DataFrame`s become ordered
association lists from column name to the list of cell strings, file contents
become lists of lines / rows, the filesystem state consumed by the directory
helpers becomes explicit parameters, and Python exceptions become `Except`.
-/

namespace CsvParser

/-! ## Column-name canonicalization (`clean_column_name`, lines 21-30)

The Python code is, in order:
  `column_name.lower()`;
  `re.sub(r"[^a-zA-Z0-9]", " ", column_name)`;
  `column_name.strip()`;
  `re.sub(r" {2,}", " ", column_name)`;
  `column_name.replace(" ", "_")`.
Strings are modelled as their `List Char`; `str.lower` is modelled on the
ASCII range (after the substitution step only ASCII alphanumerics and spaces
remain, so the composite is unaffected).
-/

/-- ASCII alphanumeric test: the regex class `[a-zA-Z0-9]`. -/
def isAlnumAscii (c : Char) : Bool :=
  ('a' ≤ c && c ≤ 'z') || ('A' ≤ c && c ≤ 'Z') || ('0' ≤ c && c ≤ '9')

/-- `re.sub(r"[^a-zA-Z0-9]", " ", s)`: every character outside the class
becomes a space. -/
def subSpecial (cs : List Char) : List Char :=
  cs.map (fun c => if isAlnumAscii c then c else ' ')

/-- `str.strip()`: remove leading and trailing whitespace.  At its use site
the string holds only ASCII alphanumerics and spaces, so stripping spaces is
exact. -/
def stripSpaces (cs : List Char) : List Char :=
  ((cs.dropWhile (fun c => c == ' ')).reverse.dropWhile (fun c => c == ' ')).reverse

/-- `re.sub(r" {2,}", " ", s)`: collapse each run of two or more spaces to a
single space (runs of one are left alone, so every maximal run becomes one
space).  A space followed by another space is dropped; the last space of a
run survives. -/
def collapseSpaces : List Char → List Char
  | [] => []
  | [c] => [c]
  | c :: d :: rest =>
    if c = ' ' ∧ d = ' ' then collapseSpaces (d :: rest)
    else c :: collapseSpaces (d :: rest)

/-- `str.replace(" ", "_")`. -/
def spacesToUnderscores (cs : List Char) : List Char :=
  cs.map (fun c => if c = ' ' then '_' else c)

/-- `clean_column_name` on character lists: lowercase, substitute
non-alphanumerics by spaces, strip, collapse space runs, replace spaces by
underscores. -/
def cleanList (cs : List Char) : List Char :=
  spacesToUnderscores (collapseSpaces (stripSpaces (subSpecial (cs.map Char.toLower))))

/-- `clean_column_name` (source lines 21-30). -/
def clean_column_name (s : String) : String :=
  ⟨cleanList s.data⟩

/-! ### The canonical-output language

`^[a-z0-9]+(_[a-z0-9]+)*$` as a two-state matcher: `goodRun cs atStart`
accepts iff `cs` is a run of lowercase-alphanumeric words separated by single
underscores, where `atStart = true` demands that a fresh word begin at once.
-/

/-- The character class `[a-z0-9]`. -/
def goodChar (c : Char) : Bool :=
  ('a' ≤ c && c ≤ 'z') || ('0' ≤ c && c ≤ '9')

/-- Two-state matcher for `[a-z0-9]+(_[a-z0-9]+)*`; `atStart` records whether
the next character must open a new word. -/
def goodRun : List Char → Bool → Bool
  | [], atStart => !atStart
  | c :: rest, true => goodChar c && goodRun rest false
  | c :: rest, false =>
    if c = '_' then goodRun rest true else goodChar c && goodRun rest false

/-- Full-match of `^[a-z0-9]+(_[a-z0-9]+)*$` on a string. -/
def matchesCanonName (s : String) : Bool :=
  goodRun s.data true

/-- The shape of a canonical column name: only `[a-z0-9_]` characters, no
leading or trailing underscore, and no two adjacent underscores. -/
structure IsCanonicalName (u : List Char) : Prop where
  chars : ∀ c ∈ u, goodChar c = true ∨ c = '_'
  headOk : u.head? ≠ some '_'
  lastOk : u.getLast? ≠ some '_'
  sep : List.Chain' (fun a b => ¬(a = '_' ∧ b = '_')) u

/-! ### Character-level facts -/

theorem char_le_iff {a b : Char} : a ≤ b ↔ a.toNat ≤ b.toNat := by
  simp [Char.le_def, UInt32.le_def, BitVec.le_def, Char.toNat, UInt32.toNat]

theorem toLower_shape (c : Char) :
    (Char.toLower c = Char.ofNat (c.toNat + 32) ∧ 65 ≤ c.toNat ∧ c.toNat ≤ 90) ∨
      (Char.toLower c = c ∧ ¬(65 ≤ c.toNat ∧ c.toNat ≤ 90)) := by
  have hdef : Char.toLower c =
      if 65 ≤ c.toNat ∧ c.toNat ≤ 90 then Char.ofNat (c.toNat + 32) else c := rfl
  rw [hdef]
  split_ifs with h
  · exact Or.inl ⟨rfl, h⟩
  · exact Or.inr ⟨rfl, h⟩

theorem goodChar_ofNat_shift :
    ∀ n : Nat, n < 91 → 65 ≤ n → goodChar (Char.ofNat (n + 32)) = true := by decide

theorem goodChar_toLower {c : Char} (h : isAlnumAscii (Char.toLower c) = true) :
    goodChar (Char.toLower c) = true := by
  rcases toLower_shape c with ⟨he, h1, h2⟩ | ⟨he, hn⟩
  · rw [he]
    exact goodChar_ofNat_shift _ (by omega) h1
  · rw [he] at h ⊢
    unfold isAlnumAscii at h
    unfold goodChar
    simp only [Bool.or_eq_true, Bool.and_eq_true, decide_eq_true_eq] at h ⊢
    rcases h with (h | h) | h
    · exact Or.inl h
    · refine absurd ⟨?_, ?_⟩ hn
      · exact char_le_iff.mp h.1
      · exact char_le_iff.mp h.2
    · exact Or.inr h

theorem goodChar_ne_space {c : Char} (h : goodChar c = true) : c ≠ ' ' := by
  intro hc
  subst hc
  exact absurd h (by decide)

theorem goodChar_ne_underscore {c : Char} (h : goodChar c = true) : c ≠ '_' := by
  intro hc
  subst hc
  exact absurd h (by decide)

theorem goodChar_isAlnum {c : Char} (h : goodChar c = true) : isAlnumAscii c = true := by
  unfold goodChar at h
  unfold isAlnumAscii
  simp only [Bool.or_eq_true] at h ⊢
  rcases h with h | h
  · exact Or.inl (Or.inl h)
  · exact Or.inr h

theorem isAlnumAscii_underscore_false : isAlnumAscii '_' = false := by decide

/-! ### Facts about the pipeline stages -/

theorem mem_subSpecial_lower {cs : List Char} {c : Char}
    (h : c ∈ subSpecial (cs.map Char.toLower)) : goodChar c = true ∨ c = ' ' := by
  unfold subSpecial at h
  rw [List.map_map, List.mem_map] at h
  obtain ⟨a, -, rfl⟩ := h
  simp only [Function.comp_apply]
  by_cases hb : isAlnumAscii (Char.toLower a) = true
  · rw [if_pos hb]
    exact Or.inl (goodChar_toLower hb)
  · rw [if_neg hb]
    exact Or.inr rfl

theorem stripSpaces_sublist (l : List Char) : List.Sublist (stripSpaces l) l := by
  unfold stripSpaces
  have h2 : List.Sublist
      ((l.dropWhile (fun c => c == ' ')).reverse.dropWhile (fun c => c == ' ')).reverse
      (l.dropWhile (fun c => c == ' ')).reverse.reverse :=
    (List.dropWhile_sublist _).reverse
  rw [List.reverse_reverse] at h2
  exact h2.trans (List.dropWhile_sublist _)

theorem head?_dropWhile_ne {l : List Char} {c : Char}
    (h : (l.dropWhile (fun c => c == ' ')).head? = some c) : c ≠ ' ' := by
  induction l with
  | nil => simp at h
  | cons a rest ih =>
    rw [List.dropWhile_cons] at h
    by_cases ha : a = ' '
    · rw [if_pos (by simp [ha])] at h
      exact ih h
    · rw [if_neg (by simpa using ha)] at h
      simp only [List.head?_cons, Option.some.injEq] at h
      exact h ▸ ha

theorem stripSpaces_head? {l : List Char} {c : Char}
    (h : (stripSpaces l).head? = some c) : c ≠ ' ' := by
  unfold stripSpaces at h
  rw [List.head?_reverse] at h
  obtain ⟨t, ht⟩ :=
    List.dropWhile_suffix (l := (l.dropWhile (fun c => c == ' ')).reverse)
      (fun c => c == ' ')
  have h2 : ((l.dropWhile (fun c => c == ' ')).reverse).getLast? = some c := by
    rw [← ht, List.getLast?_append, h]
    rfl
  rw [List.getLast?_reverse] at h2
  exact head?_dropWhile_ne h2

theorem stripSpaces_getLast? {l : List Char} {c : Char}
    (h : (stripSpaces l).getLast? = some c) : c ≠ ' ' := by
  unfold stripSpaces at h
  rw [List.getLast?_reverse] at h
  exact head?_dropWhile_ne h

theorem collapseSpaces_subset (l : List Char) : collapseSpaces l ⊆ l := by
  induction l with
  | nil => simp [collapseSpaces]
  | cons c rest ih =>
    cases rest with
    | nil => simp [collapseSpaces]
    | cons d r3 =>
      rw [collapseSpaces]
      split_ifs with hcd
      · exact fun x hx => List.mem_cons_of_mem _ (ih hx)
      · intro x hx
        rcases List.mem_cons.mp hx with rfl | hx
        · exact List.mem_cons_self _ _
        · exact List.mem_cons_of_mem _ (ih hx)

theorem head?_collapseSpaces (l : List Char) : (collapseSpaces l).head? = l.head? := by
  induction l with
  | nil => rfl
  | cons c rest ih =>
    cases rest with
    | nil => rfl
    | cons d r3 =>
      rw [collapseSpaces]
      split_ifs with hcd
      · rw [ih]
        simp [hcd.1, hcd.2]
      · rfl

theorem getLast?_collapseSpaces (l : List Char) : (collapseSpaces l).getLast? = l.getLast? := by
  induction l with
  | nil => rfl
  | cons c rest ih =>
    cases rest with
    | nil => rfl
    | cons d r3 =>
      rw [collapseSpaces]
      split_ifs with hcd
      · rw [ih, List.getLast?_cons_cons]
      · rw [List.getLast?_cons, ih, List.getLast?_cons_cons, ← List.getLast?_cons (a := c)]
        rw [List.getLast?_cons_cons]

theorem chain'_collapseSpaces (l : List Char) :
    List.Chain' (fun a b => ¬(a = ' ' ∧ b = ' ')) (collapseSpaces l) := by
  induction l with
  | nil => simp [collapseSpaces]
  | cons c rest ih =>
    cases rest with
    | nil => simp [collapseSpaces]
    | cons d r3 =>
      rw [collapseSpaces]
      split_ifs with hcd
      · exact ih
      · rw [List.chain'_cons']
        refine ⟨?_, ih⟩
        intro y hy
        rw [head?_collapseSpaces] at hy
        simp only [List.head?_cons, Option.mem_def, Option.some.injEq] at hy
        subst hy
        exact hcd

theorem collapseSpaces_eq_self {l : List Char}
    (h : List.Chain' (fun a b => ¬(a = ' ' ∧ b = ' ')) l) : collapseSpaces l = l := by
  induction l with
  | nil => rfl
  | cons c rest ih =>
    cases rest with
    | nil => rfl
    | cons d r3 =>
      rw [List.chain'_cons] at h
      rw [collapseSpaces, if_neg h.1, ih h.2]

/-- Transfer a `Chain'` relation across `List.map`, using a predicate that
holds of every member of the list. -/
theorem chain'_map_mem {α β : Type} (f : α → β) (P : α → Prop)
    {R : α → α → Prop} {S : β → β → Prop}
    (hRS : ∀ a b, P a → P b → R a b → S (f a) (f b)) :
    ∀ l : List α, (∀ c ∈ l, P c) → List.Chain' R l → List.Chain' S (l.map f) := by
  intro l
  induction l with
  | nil => intro _ _; simp
  | cons c rest ih =>
    intro hall hch
    rw [List.chain'_cons'] at hch
    rw [List.map_cons, List.chain'_cons']
    refine ⟨?_, ih (fun x hx => hall x (List.mem_cons_of_mem _ hx)) hch.2⟩
    intro y hy
    rw [List.head?_map] at hy
    rw [Option.mem_def, Option.map_eq_some'] at hy
    obtain ⟨d, hd, rfl⟩ := hy
    exact hRS c d (hall c (List.mem_cons_self _ _))
      (hall d (List.mem_cons_of_mem _ (List.mem_of_mem_head? hd))) (hch.1 d hd)

/-! ### The output of `cleanList` is canonical -/

theorem mem_spaceForm {cs : List Char} {c : Char}
    (h : c ∈ collapseSpaces (stripSpaces (subSpecial (cs.map Char.toLower)))) :
    goodChar c = true ∨ c = ' ' :=
  mem_subSpecial_lower ((stripSpaces_sublist _).subset (collapseSpaces_subset _ h))

theorem cleanList_canonical (cs : List Char) : IsCanonicalName (cleanList cs) := by
  unfold cleanList spacesToUnderscores
  constructor
  · intro c hc
    rw [List.mem_map] at hc
    obtain ⟨b, hb, rfl⟩ := hc
    by_cases hbs : b = ' '
    · rw [if_pos hbs]
      exact Or.inr rfl
    · rw [if_neg hbs]
      exact Or.inl ((mem_spaceForm hb).resolve_right hbs)
  · intro habs
    rw [List.head?_map, Option.map_eq_some'] at habs
    obtain ⟨b, hb, hfb⟩ := habs
    by_cases hbs : b = ' '
    · subst hbs
      rw [head?_collapseSpaces] at hb
      exact stripSpaces_head? hb rfl
    · rw [if_neg hbs] at hfb
      subst hfb
      rcases mem_spaceForm (List.mem_of_mem_head? hb) with hg | hg
      · exact absurd hg (by decide)
      · exact hbs hg
  · intro habs
    rw [List.getLast?_map, Option.map_eq_some'] at habs
    obtain ⟨b, hb, hfb⟩ := habs
    by_cases hbs : b = ' '
    · subst hbs
      rw [getLast?_collapseSpaces] at hb
      exact stripSpaces_getLast? hb rfl
    · rw [if_neg hbs] at hfb
      subst hfb
      rcases mem_spaceForm (List.mem_of_mem_getLast? hb) with hg | hg
      · exact absurd hg (by decide)
      · exact hbs hg
  · refine chain'_map_mem _ (fun b => goodChar b = true ∨ b = ' ') ?_ _
      (fun c hc => mem_spaceForm hc) (chain'_collapseSpaces _)
    intro a b ha hb hR habs
    have hasp : a = ' ' := by
      by_cases has : a = ' '
      · exact has
      · rw [if_neg has] at habs
        rcases ha with hg | hg
        · exact absurd habs.1 (goodChar_ne_underscore hg)
        · exact absurd hg has
    have hbsp : b = ' ' := by
      by_cases hbs : b = ' '
      · exact hbs
      · rw [if_neg hbs] at habs
        rcases hb with hg | hg
        · exact absurd habs.2 (goodChar_ne_underscore hg)
        · exact absurd hg hbs
    exact hR ⟨hasp, hbsp⟩

/-! ### Canonical names are fixed points of `cleanList` -/

theorem toLower_fixed {c : Char} (h : goodChar c = true ∨ c = '_') :
    Char.toLower c = c := by
  rcases toLower_shape c with ⟨he, h1, h2⟩ | ⟨he, -⟩
  · exfalso
    rcases h with hg | rfl
    · unfold goodChar at hg
      simp only [Bool.or_eq_true, Bool.and_eq_true, decide_eq_true_eq] at hg
      rcases hg with hg | hg
      · have h97 : 97 ≤ c.toNat := char_le_iff.mp hg.1
        omega
      · have h57 : c.toNat ≤ 57 := char_le_iff.mp hg.2
        omega
    · have h95 : ('_' : Char).toNat = 95 := rfl
      omega
  · exact he

theorem stripSpaces_eq_self {l : List Char}
    (hh : l.head? ≠ some ' ') (hl : l.getLast? ≠ some ' ') : stripSpaces l = l := by
  unfold stripSpaces
  have d1 : l.dropWhile (fun c => c == ' ') = l := by
    cases l with
    | nil => rfl
    | cons a r =>
      rw [List.dropWhile_cons, if_neg]
      simp only [List.head?_cons] at hh
      simp only [beq_iff_eq]
      intro habs
      exact hh (by rw [habs])
  rw [d1]
  have d2 : l.reverse.dropWhile (fun c => c == ' ') = l.reverse := by
    cases hrev : l.reverse with
    | nil => rfl
    | cons a r =>
      rw [List.dropWhile_cons, if_neg]
      have hla : l.getLast? = some a := by
        rw [← List.head?_reverse, hrev]
        rfl
      simp only [beq_iff_eq]
      intro habs
      exact hl (by rw [hla, habs])
  rw [d2, List.reverse_reverse]

theorem cleanList_of_canonical {u : List Char} (h : IsCanonicalName u) :
    cleanList u = u := by
  unfold cleanList
  have h1 : u.map Char.toLower = u := by
    have := List.map_congr_left (g := id) (fun a ha => toLower_fixed (h.chars a ha))
    rwa [List.map_id] at this
  rw [h1]
  have h2 : subSpecial u = u.map (fun c => if c = '_' then ' ' else c) := by
    unfold subSpecial
    refine List.map_congr_left ?_
    intro a ha
    rcases h.chars a ha with hg | rfl
    · rw [if_pos (goodChar_isAlnum hg), if_neg (goodChar_ne_underscore hg)]
    · rw [if_pos rfl, if_neg]
      simp [isAlnumAscii_underscore_false]
  rw [h2]
  have hchars : ∀ c ∈ u.map (fun c => if c = '_' then ' ' else c),
      goodChar c = true ∨ c = ' ' := by
    intro c hc
    rw [List.mem_map] at hc
    obtain ⟨b, hb, rfl⟩ := hc
    rcases h.chars b hb with hg | rfl
    · rw [if_neg (goodChar_ne_underscore hg)]
      exact Or.inl hg
    · rw [if_pos rfl]
      exact Or.inr rfl
  have hhead : (u.map (fun c => if c = '_' then ' ' else c)).head? ≠ some ' ' := by
    intro habs
    rw [List.head?_map, Option.map_eq_some'] at habs
    obtain ⟨b, hb, hfb⟩ := habs
    rcases h.chars b (List.mem_of_mem_head? hb) with hg | rfl
    · rw [if_neg (goodChar_ne_underscore hg)] at hfb
      exact goodChar_ne_space hg hfb
    · exact h.headOk hb
  have hlast : (u.map (fun c => if c = '_' then ' ' else c)).getLast? ≠ some ' ' := by
    intro habs
    rw [List.getLast?_map, Option.map_eq_some'] at habs
    obtain ⟨b, hb, hfb⟩ := habs
    rcases h.chars b (List.mem_of_mem_getLast? hb) with hg | rfl
    · rw [if_neg (goodChar_ne_underscore hg)] at hfb
      exact goodChar_ne_space hg hfb
    · exact h.lastOk hb
  have hchain : List.Chain' (fun a b => ¬(a = ' ' ∧ b = ' '))
      (u.map (fun c => if c = '_' then ' ' else c)) := by
    refine chain'_map_mem _ (fun b => goodChar b = true ∨ b = '_') ?_ _ h.chars h.sep
    intro a b ha hb hR habs
    refine hR ⟨?_, ?_⟩
    · rcases ha with hg | rfl
      · rw [if_neg (goodChar_ne_underscore hg)] at habs
        exact absurd habs.1 (goodChar_ne_space hg)
      · rfl
    · rcases hb with hg | rfl
      · rw [if_neg (goodChar_ne_underscore hg)] at habs
        exact absurd habs.2 (goodChar_ne_space hg)
      · rfl
  rw [stripSpaces_eq_self hhead hlast, collapseSpaces_eq_self hchain]
  unfold spacesToUnderscores
  rw [List.map_map]
  have : ∀ a ∈ u,
      ((fun c => if c = ' ' then '_' else c) ∘ fun c => if c = '_' then ' ' else c) a
        = id a := by
    intro a ha
    rcases h.chars a ha with hg | rfl
    · simp only [Function.comp_apply, if_neg (goodChar_ne_underscore hg),
        if_neg (goodChar_ne_space hg), id]
    · simp [Function.comp_apply]
  rw [List.map_congr_left this, List.map_id]

/-! ### Canonical names match the regex, or are empty -/

theorem goodRun_true_eq_false {l : List Char} (hne : l ≠ []) (hh : l.head? ≠ some '_') :
    goodRun l true = goodRun l false := by
  cases l with
  | nil => exact absurd rfl hne
  | cons c rest =>
    simp only [List.head?_cons] at hh
    have hc : c ≠ '_' := fun habs => hh (by rw [habs])
    rw [goodRun, goodRun, if_neg hc]

theorem goodRun_false_of : ∀ l : List Char,
    (∀ c ∈ l, goodChar c = true ∨ c = '_') → l.getLast? ≠ some '_' →
    List.Chain' (fun a b => ¬(a = '_' ∧ b = '_')) l → goodRun l false = true := by
  intro l
  induction l with
  | nil => intro _ _ _; rfl
  | cons c rest ih =>
    intro hall hlast hch
    by_cases hc : c = '_'
    · subst hc
      rw [goodRun, if_pos rfl]
      cases rest with
      | nil => exact absurd rfl hlast
      | cons d r3 =>
        rw [List.chain'_cons] at hch
        have hd : d ≠ '_' := fun habs => hch.1 ⟨rfl, habs⟩
        rw [goodRun_true_eq_false (by simp) (by simp [hd])]
        exact ih (fun x hx => hall x (List.mem_cons_of_mem _ hx))
          (by rwa [List.getLast?_cons_cons] at hlast) hch.2
    · rw [goodRun, if_neg hc]
      have hgood : goodChar c = true := (hall c (List.mem_cons_self _ _)).resolve_right hc
      rw [hgood, Bool.true_and]
      cases rest with
      | nil => rfl
      | cons d r3 =>
        rw [List.chain'_cons] at hch
        exact ih (fun x hx => hall x (List.mem_cons_of_mem _ hx))
          (by rwa [List.getLast?_cons_cons] at hlast) hch.2

theorem matches_of_canonical {u : List Char} (h : IsCanonicalName u) :
    goodRun u true = true ∨ u = [] := by
  by_cases hu : u = []
  · exact Or.inr hu
  · left
    rw [goodRun_true_eq_false hu h.headOk]
    exact goodRun_false_of u h.chars h.lastOk h.sep

end CsvParser

/-- C4: column-name canonicalization (`clean_column_name`) is idempotent:
for every string `x`, `canon (canon x) = canon x`. -/
theorem CsvParser.clean_column_name_idempotent (s : String) :
    CsvParser.clean_column_name (CsvParser.clean_column_name s)
      = CsvParser.clean_column_name s :=
  congrArg String.mk
    (CsvParser.cleanList_of_canonical (CsvParser.cleanList_canonical s.data))

/-- C5 (counterexample): on the input `"!"`, `clean_column_name` returns the
empty string, which does not match `^[a-z0-9]+(_[a-z0-9]+)*$`, and the code
has no rejection path: the result is returned as is.  So it is false that
every produced name matches the pattern. -/
theorem CsvParser.clean_column_name_empty_output :
    CsvParser.clean_column_name "!" = "" ∧
      CsvParser.matchesCanonName (CsvParser.clean_column_name "!") = false := by
  exact ⟨by decide, by decide⟩

/-- C5 (amended): for every input string, the result of `clean_column_name`
either matches `^[a-z0-9]+(_[a-z0-9]+)*$` (non-empty, only lowercase
alphanumerics and underscores, no leading, trailing, or duplicate
underscores) or is the empty string; no input is rejected. -/
theorem CsvParser.clean_column_name_matches_or_empty (s : String) :
    CsvParser.matchesCanonName (CsvParser.clean_column_name s) = true ∨
      CsvParser.clean_column_name s = "" := by
  rcases CsvParser.matches_of_canonical (CsvParser.cleanList_canonical s.data) with h | h
  · exact Or.inl h
  · right
    show String.mk (CsvParser.cleanList s.data) = ""
    rw [h]

namespace CsvParser

/-! ## Column classification (`guess_metrics_and_columns`, lines 37-55)

The source reads the CSV with `pd.read_csv` and marks a column as metric iff
`df[column].dtype == "int"` (int64 on a 64-bit platform).  pandas infers the
int64 storage dtype for a column exactly when the column has at least one
row and every cell converts as a *64-bit signed* integer: the tokenizer's
`str_to_int64` skips surrounding whitespace, accepts an optional sign
followed by digits, and fails on overflow, in which case the column falls
back to uint64, float64 or object.  So a float literal such as `1.0`, an
empty cell, any text, or an integer outside `[-2^63, 2^63 - 1]` makes the
dtype something other than `"int"`.  A table is an ordered association list
from column name to cell strings.
-/

/-- The character class `[0-9]`. -/
def isDigitChar (c : Char) : Bool :=
  '0' ≤ c && c ≤ '9'

/-- An integer literal: an optional leading sign followed by one or more
digits — the strings that "parse as an integer" (Python's `int(...)`),
with no bound on magnitude. -/
def isIntLiteral (s : String) : Bool :=
  let cs := if s.data.head? = some '-' || s.data.head? = some '+'
            then s.data.tail else s.data
  !cs.isEmpty && cs.all isDigitChar

/-- The whitespace the pandas tokenizer skips around a numeric cell. -/
def isCellSpace (c : Char) : Bool :=
  c = ' ' || c = '\t'

/-- Strip the tolerated surrounding whitespace of a numeric cell. -/
def stripCellSpace (cs : List Char) : List Char :=
  ((cs.dropWhile isCellSpace).reverse.dropWhile isCellSpace).reverse

/-- The numeric value of a digit string. -/
def digitsToNat (cs : List Char) : Nat :=
  cs.foldl (fun acc c => 10 * acc + (c.toNat - 48)) 0

/-- The pandas tokenizer's integer conversion (`str_to_int64` without its
range check): surrounding whitespace skipped, an optional sign, then one or
more digits; anything else is not an integer cell. -/
def parsePandasInt (s : String) : Option Int :=
  match stripCellSpace s.data with
  | '-' :: digits =>
    if !digits.isEmpty && digits.all isDigitChar
    then some (-(digitsToNat digits : Int)) else none
  | '+' :: digits =>
    if !digits.isEmpty && digits.all isDigitChar
    then some (digitsToNat digits : Int) else none
  | digits =>
    if !digits.isEmpty && digits.all isDigitChar
    then some (digitsToNat digits : Int) else none

/-- A cell that converts as int64: it parses as an integer and its value
fits the signed 64-bit range `[-2^63, 2^63 - 1]` (beyond it pandas falls
back to uint64, float64 or object). -/
def isInt64Cell (s : String) : Bool :=
  match parsePandasInt s with
  | none => false
  | some v => decide (-(2 ^ 63) ≤ v) && decide (v ≤ 2 ^ 63 - 1)

/-- One entry of the column-metadata dictionary built per column. -/
structure ColumnMeta where
  updated_col_name : String
  metric : Bool
  dimension : Bool
deriving DecidableEq

/-- Models `pd.read_csv` dtype inference: `df[column].dtype == "int"` holds
iff the column is non-empty and every cell converts as int64. -/
def inferredIntDtype (values : List String) : Bool :=
  !values.isEmpty && values.all isInt64Cell

/-- The per-column body of `guess_metrics_and_columns` (lines 42-55): an
integer-dtype column gets `metric := true, dimension := false`, every other
column the opposite, and `updated_col_name` is the original column name. -/
def guessColumn (colName : String) (values : List String) : ColumnMeta :=
  if inferredIntDtype values then
    { updated_col_name := colName, metric := true, dimension := false }
  else
    { updated_col_name := colName, metric := false, dimension := true }

/-- `guess_metrics_and_columns` (lines 37-55), with the parsed CSV passed
explicitly: one metadata entry per column. -/
def guess_metrics_and_columns (table : List (String × List String)) :
    List (String × ColumnMeta) :=
  table.map (fun col => (col.1, guessColumn col.1 col.2))

theorem inferredIntDtype_eq_all {values : List String} (hne : values ≠ []) :
    inferredIntDtype values = values.all isInt64Cell := by
  unfold inferredIntDtype
  cases values with
  | nil => exact absurd rfl hne
  | cons a r => rfl

end CsvParser

/-- C3 (counterexample): the single-cell column `10000000000000000000`
(ten quintillion, above `2^63 - 1`) parses as an integer, yet the classifier
marks the column a dimension, not a metric: pandas cannot store the value as
int64, infers uint64, and `dtype == "int"` is false.  So "metric iff all
values parse as integers" fails. -/
theorem CsvParser.guess_metric_int64_counterexample :
    (∀ v ∈ ["10000000000000000000"], CsvParser.isIntLiteral v = true) ∧
      (CsvParser.guessColumn "big" ["10000000000000000000"]).metric = false ∧
      (CsvParser.guessColumn "big" ["10000000000000000000"]).dimension = true :=
  ⟨by decide, by decide, by decide⟩

/-- C3 (amended): for a non-empty column, `guess_metrics_and_columns`
classifies it as metric iff all its values convert as *signed 64-bit*
integers (pandas' int64 dtype); boundary cases: `"0"` and negative integers
such as `"-7"` convert, a value with trailing `".0"` does not (the column
becomes float, hence a dimension), and an integer beyond `2^63 - 1` parses
as an integer but does not fit int64, so its column is a dimension; every
non-metric column is a dimension, and `updated_col_name` defaults to the
original column name. -/
theorem CsvParser.guess_metrics_and_columns_spec
    (table : List (String × List String)) (name : String) (values : List String)
    (hmem : (name, values) ∈ table) (hne : values ≠ []) :
    (name, CsvParser.guessColumn name values) ∈
        CsvParser.guess_metrics_and_columns table ∧
      ((CsvParser.guessColumn name values).metric = true ↔
        ∀ v ∈ values, CsvParser.isInt64Cell v = true) ∧
      (CsvParser.guessColumn name values).dimension
        = !(CsvParser.guessColumn name values).metric ∧
      (CsvParser.guessColumn name values).updated_col_name = name ∧
      CsvParser.isInt64Cell "0" = true ∧
      CsvParser.isInt64Cell "-7" = true ∧
      CsvParser.isInt64Cell " 7 " = true ∧
      CsvParser.isInt64Cell "12.0" = false ∧
      CsvParser.isIntLiteral "10000000000000000000" = true ∧
      CsvParser.isInt64Cell "10000000000000000000" = false := by
  refine ⟨?_, ?_, ?_, ?_, by decide, by decide, by decide, by decide, by decide,
    by decide⟩
  · exact List.mem_map.mpr ⟨(name, values), hmem, rfl⟩
  · unfold CsvParser.guessColumn
    rw [CsvParser.inferredIntDtype_eq_all hne]
    by_cases hall : values.all CsvParser.isInt64Cell = true
    · rw [if_pos hall]
      simpa using List.all_eq_true.mp hall
    · rw [if_neg hall]
      constructor
      · intro habs
        exact absurd habs (by simp)
      · intro h
        exact absurd (List.all_eq_true.mpr h) hall
  · unfold CsvParser.guessColumn
    split_ifs <;> rfl
  · unfold CsvParser.guessColumn
    split_ifs <;> rfl

/-- Witness for C3 (amended): the concrete table from the spec's scenario,
with an extra negative and zero value in the metric column. -/
theorem CsvParser.guess_metrics_and_columns_spec_witness :
    ("score", CsvParser.guessColumn "score" ["10", "0", "-3"]) ∈
        CsvParser.guess_metrics_and_columns
          [("student", ["Ada", "Grace", "Ada"]), ("score", ["10", "0", "-3"])] ∧
      ((CsvParser.guessColumn "score" ["10", "0", "-3"]).metric = true ↔
        ∀ v ∈ ["10", "0", "-3"], CsvParser.isInt64Cell v = true) ∧
      (CsvParser.guessColumn "score" ["10", "0", "-3"]).dimension
        = !(CsvParser.guessColumn "score" ["10", "0", "-3"]).metric ∧
      (CsvParser.guessColumn "score" ["10", "0", "-3"]).updated_col_name = "score" ∧
      CsvParser.isInt64Cell "0" = true ∧
      CsvParser.isInt64Cell "-7" = true ∧
      CsvParser.isInt64Cell " 7 " = true ∧
      CsvParser.isInt64Cell "12.0" = false ∧
      CsvParser.isIntLiteral "10000000000000000000" = true ∧
      CsvParser.isInt64Cell "10000000000000000000" = false :=
  CsvParser.guess_metrics_and_columns_spec
    [("student", ["Ada", "Grace", "Ada"]), ("score", ["10", "0", "-3"])]
    "score" ["10", "0", "-3"] (by decide) (by decide)

namespace CsvParser

/-! ## Dimension files (`write_dimensions_to_ingest_folder`, lines 90-112)

Per dimension column the loop writes two files: the grammar file, an
f-string with two embedded newlines, and the data file, produced from
`df[dimension].drop_duplicates(keep="first")` with the id column
`range(1, len+1)` inserted at position 0.
-/

/-- `drop_duplicates(keep="first")` with the set of already-kept values made
explicit in `seen`: a cell is kept iff its value has not occurred before. -/
def dropDuplicatesAux (seen : List String) : List String → List String
  | [] => []
  | x :: xs =>
    if x ∈ seen then dropDuplicatesAux seen xs
    else x :: dropDuplicatesAux (x :: seen) xs

/-- `df[col].drop_duplicates(keep="first")`: the distinct values of the
column in first-occurrence order. -/
def drop_duplicates (l : List String) : List String :=
  dropDuplicatesAux [] l

/-- The data rows of `<dimension>-dimension.data.csv` (lines 105-112): the
deduplicated column paired with the inserted id column `range(1, len+1)`. -/
def dimensionTable (col : List String) : List (Nat × String) :=
  (List.range' 1 (drop_duplicates col).length).zip (drop_duplicates col)

/-- The lines of `<dimension>-dimension.grammar.csv` (lines 97-99): the
f-string `PK,Index\nstring,string\n{dimension}_id,{dimension}`. -/
def dimensionGrammarLines (dimension : String) : List String :=
  ["PK,Index", "string,string", dimension ++ "_id," ++ dimension]

/-- The per-dimension body of `write_dimensions_to_ingest_folder` (lines
96-112): the grammar-file lines and the data-file rows for one dimension
name; `df[dimension]` requires the column to be present. -/
def write_dimension_files (df : List (String × List String)) (dimension : String) :
    Option (List String × List (Nat × String)) :=
  (df.lookup dimension).map
    (fun col => (dimensionGrammarLines dimension, dimensionTable col))

theorem mem_dropDuplicatesAux {a : String} :
    ∀ (l seen : List String), a ∈ dropDuplicatesAux seen l ↔ (a ∈ l ∧ a ∉ seen) := by
  intro l
  induction l with
  | nil => intro seen; simp [dropDuplicatesAux]
  | cons x xs ih =>
    intro seen
    rw [dropDuplicatesAux]
    split_ifs with hx
    · rw [ih]
      constructor
      · exact fun ⟨hxs, hns⟩ => ⟨List.mem_cons_of_mem _ hxs, hns⟩
      · rintro ⟨hor, hns⟩
        rcases List.mem_cons.mp hor with rfl | hxs
        · exact absurd hx hns
        · exact ⟨hxs, hns⟩
    · rw [List.mem_cons, ih]
      constructor
      · rintro (rfl | ⟨hxs, hns⟩)
        · exact ⟨List.mem_cons_self _ _, hx⟩
        · exact ⟨List.mem_cons_of_mem _ hxs,
            fun habs => hns (List.mem_cons_of_mem _ habs)⟩
      · rintro ⟨hor, hns⟩
        rcases List.mem_cons.mp hor with rfl | hxs
        · exact Or.inl rfl
        · by_cases hax : a = x
          · exact Or.inl hax
          · refine Or.inr ⟨hxs, ?_⟩
            rw [List.mem_cons]
            rintro (h | h)
            · exact hax h
            · exact hns h

theorem nodup_dropDuplicatesAux :
    ∀ (l seen : List String), (dropDuplicatesAux seen l).Nodup := by
  intro l
  induction l with
  | nil => intro seen; simp [dropDuplicatesAux]
  | cons x xs ih =>
    intro seen
    rw [dropDuplicatesAux]
    split_ifs with hx
    · exact ih seen
    · rw [List.nodup_cons]
      refine ⟨?_, ih (x :: seen)⟩
      intro habs
      exact ((mem_dropDuplicatesAux xs (x :: seen)).mp habs).2 (List.mem_cons_self _ _)

theorem pairwise_dropDuplicatesAux :
    ∀ (l seen : List String),
      List.Pairwise (fun a b => l.indexOf a < l.indexOf b) (dropDuplicatesAux seen l) := by
  intro l
  induction l with
  | nil => intro seen; simp [dropDuplicatesAux]
  | cons x xs ih =>
    intro seen
    rw [dropDuplicatesAux]
    split_ifs with hx
    · refine (ih seen).imp_of_mem ?_
      intro a b ha hb hab
      have hax : a ≠ x := fun habs =>
        ((mem_dropDuplicatesAux xs seen).mp ha).2 (habs ▸ hx)
      have hbx : b ≠ x := fun habs =>
        ((mem_dropDuplicatesAux xs seen).mp hb).2 (habs ▸ hx)
      rw [List.indexOf_cons_ne _ (fun h => hax h.symm),
        List.indexOf_cons_ne _ (fun h => hbx h.symm)]
      exact Nat.succ_lt_succ hab
    · rw [List.pairwise_cons]
      constructor
      · intro b hb
        have hbx : b ≠ x := fun habs =>
          ((mem_dropDuplicatesAux xs (x :: seen)).mp hb).2
            (habs ▸ List.mem_cons_self _ _)
        rw [List.indexOf_cons_self, List.indexOf_cons_ne _ (fun h => hbx h.symm)]
        exact Nat.succ_pos _
      · refine (ih (x :: seen)).imp_of_mem ?_
        intro a b ha hb hab
        have hax : a ≠ x := fun habs =>
          ((mem_dropDuplicatesAux xs (x :: seen)).mp ha).2
            (habs ▸ List.mem_cons_self _ _)
        have hbx : b ≠ x := fun habs =>
          ((mem_dropDuplicatesAux xs (x :: seen)).mp hb).2
            (habs ▸ List.mem_cons_self _ _)
        rw [List.indexOf_cons_ne _ (fun h => hax h.symm),
          List.indexOf_cons_ne _ (fun h => hbx h.symm)]
        exact Nat.succ_lt_succ hab

theorem mem_drop_duplicates {a : String} {l : List String} :
    a ∈ drop_duplicates l ↔ a ∈ l := by
  rw [drop_duplicates, mem_dropDuplicatesAux]
  simp

theorem dimensionTable_fst (col : List String) :
    (dimensionTable col).map Prod.fst = List.range' 1 (dimensionTable col).length := by
  unfold dimensionTable
  rw [List.map_fst_zip, List.length_zip, List.length_range', Nat.min_self]
  rw [List.length_range']

theorem dimensionTable_snd (col : List String) :
    (dimensionTable col).map Prod.snd = drop_duplicates col := by
  unfold dimensionTable
  rw [List.map_snd_zip]
  rw [List.length_range']

end CsvParser

/-- C1: for a dimension column `d` present in the table,
`write_dimensions_to_ingest_folder` writes a data file whose rows pair ids
with values such that the ids are exactly the strict sequence `1..N` in
order, no two rows share a value, the values are exactly the distinct values
of column `d`, and the rows are ordered by first occurrence in the source
column. -/
theorem CsvParser.write_dimensions_data_spec
    (df : List (String × List String)) (d : String) (col : List String)
    (h : df.lookup d = some col) :
    ∃ g rows, CsvParser.write_dimension_files df d = some (g, rows) ∧
      rows.map Prod.fst = List.range' 1 rows.length ∧
      (rows.map Prod.snd).Nodup ∧
      (∀ v, v ∈ rows.map Prod.snd ↔ v ∈ col) ∧
      List.Pairwise (fun a b => col.indexOf a < col.indexOf b)
        (rows.map Prod.snd) := by
  refine ⟨CsvParser.dimensionGrammarLines d, CsvParser.dimensionTable col, ?_, ?_, ?_, ?_, ?_⟩
  · rw [CsvParser.write_dimension_files, h]
    rfl
  · exact CsvParser.dimensionTable_fst col
  · rw [CsvParser.dimensionTable_snd]
    exact CsvParser.nodup_dropDuplicatesAux col []
  · intro v
    rw [CsvParser.dimensionTable_snd]
    exact CsvParser.mem_drop_duplicates
  · rw [CsvParser.dimensionTable_snd]
    exact CsvParser.pairwise_dropDuplicatesAux col []

/-- Witness for C1: the spec's scenario column `name` with values
`Ada, Grace, Ada`. -/
theorem CsvParser.write_dimensions_data_spec_witness :
    ∃ g rows,
      CsvParser.write_dimension_files
          [("name", ["Ada", "Grace", "Ada"]), ("score", ["10", "10", "7"])] "name"
        = some (g, rows) ∧
      rows.map Prod.fst = List.range' 1 rows.length ∧
      (rows.map Prod.snd).Nodup ∧
      (∀ v, v ∈ rows.map Prod.snd ↔ v ∈ ["Ada", "Grace", "Ada"]) ∧
      List.Pairwise
        (fun a b => ["Ada", "Grace", "Ada"].indexOf a < ["Ada", "Grace", "Ada"].indexOf b)
        (rows.map Prod.snd) :=
  CsvParser.write_dimensions_data_spec
    [("name", ["Ada", "Grace", "Ada"]), ("score", ["10", "10", "7"])]
    "name" ["Ada", "Grace", "Ada"] (by decide)

/-- C6 (counterexample): the dimension grammar file written for a dimension
named `name` has three lines — `PK,Index`, `string,string` and
`name_id,name` — not two, so it is not the claimed 2-line file. -/
theorem CsvParser.dimension_grammar_counterexample :
    ∃ g rows,
      CsvParser.write_dimension_files [("name", ["Ada"])] "name" = some (g, rows) ∧
        g ≠ ["PK,Index", "string,string"] ∧ g.length = 3 :=
  ⟨CsvParser.dimensionGrammarLines "name", _, rfl, by decide, by decide⟩

/-- C6 (amended): for each dimension name `d` present in the table, the
written dimension grammar file is a fixed 3-line CSV: lines `PK,Index` and
`string,string` followed by the line `<d>_id,<d>` naming the primary key
`<d>_id` and the index `<d>` whose types the second line declares as
`string,string`. -/
theorem CsvParser.dimension_grammar_spec
    (df : List (String × List String)) (d : String) (col : List String)
    (h : df.lookup d = some col) :
    ∃ rows, CsvParser.write_dimension_files df d
        = some (["PK,Index", "string,string", d ++ "_id," ++ d], rows) := by
  refine ⟨CsvParser.dimensionTable col, ?_⟩
  rw [CsvParser.write_dimension_files, h]
  rfl

/-- Witness for C6 (amended) at a concrete one-column table. -/
theorem CsvParser.dimension_grammar_spec_witness :
    ∃ rows, CsvParser.write_dimension_files [("name", ["Ada"])] "name"
        = some (["PK,Index", "string,string", "name" ++ "_id," ++ "name"], rows) :=
  CsvParser.dimension_grammar_spec [("name", ["Ada"])] "name" ["Ada"] (by decide)

namespace CsvParser

/-! ## Event files (`write_events_to_ingest_folder`, lines 115-139)

Per metric the loop writes the grammar file and the data file
`<metric>-event.data.csv`.  The data file is `df[dimensions + [metric]]`
with a `date` column inserted at position 0, every row holding
`datetime.today().strftime("%d/%m/%y")`.
-/

/-- Zero-padded two-digit rendering of a number below 100, as `strftime`
does for `%d`, `%m` and `%y`. -/
def pad2 (n : Nat) : String :=
  if n < 10 then "0" ++ toString n else toString n

/-- `datetime.today().strftime("%d/%m/%y")` with the clock reading (day,
month, year) passed explicitly: day and month zero-padded to two digits,
year modulo 100. -/
def strftimeDMY (day month year : Nat) : String :=
  pad2 day ++ "/" ++ pad2 month ++ "/" ++ pad2 (year % 100)

/-- A string of shape `DD/MM/YY`: exactly eight characters, digits
everywhere except slashes at positions 2 and 5. -/
def isDateDMY (s : String) : Bool :=
  match s.data with
  | [a, b, s1, c, d, s2, e, f] =>
    isDigitChar a && isDigitChar b && s1 = '/' && isDigitChar c &&
      isDigitChar d && s2 = '/' && isDigitChar e && isDigitChar f
  | _ => false

/-- `df[headers]` (line 133): select the named columns in the given order;
pandas raises `KeyError` when one is absent. -/
def selectColumns (df : List (String × List String)) (headers : List String) :
    Option (List (String × List String)) :=
  headers.mapM (fun h => (df.lookup h).map (fun col => (h, col)))

/-- The row count of a column-oriented frame: the length of its first
column (pandas keeps all columns of a frame the same length). -/
def frameRowCount (cols : List (String × List String)) : Nat :=
  (cols.head?.map (fun c => c.2.length)).getD 0

/-- The per-metric data part of `write_events_to_ingest_folder` (lines
132-139): select `dimensions + [metric]` and insert at position 0 a `date`
column holding the same date string in every row. -/
def write_event_data (df : List (String × List String)) (dimensions : List String)
    (metric : String) (date : String) : Option (List (String × List String)) :=
  (selectColumns df (dimensions ++ [metric])).map
    (fun sel => ("date", List.replicate (frameRowCount sel) date) :: sel)

/-- `to_csv` row rendering of a column-oriented frame with `n` rows: row `i`
collects the `i`-th cell of every column, in column order. -/
def rowsOf (cols : List (String × List String)) (n : Nat) : List (List String) :=
  (List.range n).map (fun i => cols.map (fun c => c.2.getD i ""))

theorem pad2_digits : ∀ n, n < 100 →
    ((pad2 n).data.length = 2 ∧ ∀ c ∈ (pad2 n).data, isDigitChar c = true) := by
  decide

theorem isDateDMY_strftime {day month year : Nat}
    (hd : day ≤ 31) (hm : month ≤ 12) :
    isDateDMY (strftimeDMY day month year) = true := by
  obtain ⟨hl1, hdig1⟩ := pad2_digits day (by omega)
  obtain ⟨hl2, hdig2⟩ := pad2_digits month (by omega)
  obtain ⟨hl3, hdig3⟩ := pad2_digits (year % 100) (Nat.mod_lt _ (by norm_num))
  obtain ⟨a, b, hab⟩ := List.length_eq_two.mp hl1
  obtain ⟨c, d, hcd⟩ := List.length_eq_two.mp hl2
  obtain ⟨e, f, hef⟩ := List.length_eq_two.mp hl3
  have hdata : (strftimeDMY day month year).data = [a, b, '/', c, d, '/', e, f] := by
    unfold strftimeDMY
    simp only [String.data_append, hab, hcd, hef]
    rfl
  have ha := hdig1 a (by rw [hab]; exact List.mem_cons_self _ _)
  have hb := hdig1 b (by rw [hab]; simp)
  have hc := hdig2 c (by rw [hcd]; exact List.mem_cons_self _ _)
  have hd2 := hdig2 d (by rw [hcd]; simp)
  have he := hdig3 e (by rw [hef]; exact List.mem_cons_self _ _)
  have hf := hdig3 f (by rw [hef]; simp)
  unfold isDateDMY
  rw [hdata]
  simp [ha, hb, hc, hd2, he, hf]

theorem selectColumns_eq (df : List (String × List String)) :
    ∀ headers : List String, (∀ h ∈ headers, (df.lookup h).isSome) →
      selectColumns df headers
        = some (headers.map (fun h => (h, (df.lookup h).getD []))) := by
  intro headers
  induction headers with
  | nil => intro _; rfl
  | cons x xs ih =>
    intro hall
    have hx := hall x (List.mem_cons_self _ _)
    obtain ⟨cx, hcx⟩ := Option.isSome_iff_exists.mp hx
    unfold selectColumns at ih ⊢
    rw [List.mapM_cons, hcx]
    rw [ih (fun h hh => hall h (List.mem_cons_of_mem _ hh))]
    simp [hcx]

end CsvParser

/-- C2: for every metric `m` present in the table, with all dimension
columns present and all columns of length `n`,
`write_events_to_ingest_folder` writes an event data file with exactly one
row per source row, in original row order; row `i` is
`[date] ++ (dimension values of row i, in the given dimension order)
++ [value of m at row i]`, where `date` is the single current-date string
`strftime("%d/%m/%y")` of the run, of shape `DD/MM/YY`, shared by every
row. -/
theorem CsvParser.write_events_data_spec
    (df : List (String × List String)) (dimensions : List String) (metric : String)
    (mcol : List String) (n day month year : Nat)
    (hm : df.lookup metric = some mcol) (hmlen : mcol.length = n)
    (hdims : ∀ d ∈ dimensions, ∃ c, df.lookup d = some c ∧ c.length = n)
    (hday : day ≤ 31) (hmonth : month ≤ 12) :
    ∃ ev, CsvParser.write_event_data df dimensions metric
        (CsvParser.strftimeDMY day month year) = some ev ∧
      (CsvParser.rowsOf ev n).length = n ∧
      (∀ i, i < n → (CsvParser.rowsOf ev n).getD i []
          = CsvParser.strftimeDMY day month year
            :: (dimensions.map (fun d => ((df.lookup d).getD []).getD i "")
              ++ [mcol.getD i ""])) ∧
      CsvParser.isDateDMY (CsvParser.strftimeDMY day month year) = true := by
  have hall : ∀ h ∈ dimensions ++ [metric], (df.lookup h).isSome := by
    intro h hh
    rcases List.mem_append.mp hh with hh | hh
    · obtain ⟨c, hc, -⟩ := hdims h hh
      rw [hc]
      rfl
    · rw [List.mem_singleton] at hh
      subst hh
      rw [hm]
      rfl
  have hsel := CsvParser.selectColumns_eq df (dimensions ++ [metric]) hall
  have hfrc : CsvParser.frameRowCount
      ((dimensions ++ [metric]).map (fun h => (h, (df.lookup h).getD []))) = n := by
    cases dimensions with
    | nil => simp [CsvParser.frameRowCount, hm, hmlen]
    | cons d ds =>
      obtain ⟨c, hc, hlen⟩ := hdims d (List.mem_cons_self _ _)
      simp [CsvParser.frameRowCount, hc, hlen]
  refine ⟨("date", List.replicate
      (CsvParser.frameRowCount
        ((dimensions ++ [metric]).map (fun h => (h, (df.lookup h).getD []))))
      (CsvParser.strftimeDMY day month year))
    :: (dimensions ++ [metric]).map (fun h => (h, (df.lookup h).getD [])),
    ?_, ?_, ?_, CsvParser.isDateDMY_strftime hday hmonth⟩
  · unfold CsvParser.write_event_data
    rw [hsel]
    rfl
  · simp [CsvParser.rowsOf]
  · intro i hi
    rw [CsvParser.rowsOf, List.getD_eq_getElem?_getD, List.getElem?_map,
      List.getElem?_range hi]
    simp only [Option.map_some', Option.getD_some, List.map_cons]
    congr 1
    · rw [hfrc, List.getD_eq_getElem?_getD, List.getElem?_replicate_of_lt hi]
      rfl
    · rw [List.map_map, List.map_append]
      congr 1
      simp [hm]

/-- Witness for C2: the spec's scenario table, dimension `name`, metric
`score`, three rows, run on 2026-10-12. -/
theorem CsvParser.write_events_data_spec_witness :
    ∃ ev, CsvParser.write_event_data
        [("name", ["Ada", "Grace", "Ada"]), ("score", ["10", "10", "7"])]
        ["name"] "score" (CsvParser.strftimeDMY 12 10 2026) = some ev ∧
      (CsvParser.rowsOf ev 3).length = 3 ∧
      (∀ i, i < 3 → (CsvParser.rowsOf ev 3).getD i []
          = CsvParser.strftimeDMY 12 10 2026
            :: (["name"].map (fun d =>
                (([("name", ["Ada", "Grace", "Ada"]),
                   ("score", ["10", "10", "7"])].lookup d).getD []).getD i "")
              ++ [["10", "10", "7"].getD i ""])) ∧
      CsvParser.isDateDMY (CsvParser.strftimeDMY 12 10 2026) = true :=
  CsvParser.write_events_data_spec
    [("name", ["Ada", "Grace", "Ada"]), ("score", ["10", "10", "7"])]
    ["name"] "score" ["10", "10", "7"] 3 12 10 2026 (by decide) (by decide)
    (by
      intro d hd
      rw [List.mem_singleton] at hd
      subst hd
      exact ⟨["Ada", "Grace", "Ada"], rfl, rfl⟩)
    (by decide) (by decide)

namespace CsvParser

/-! ## Program-directory resolution and file preview (lines 176-208)

`get_ingest_folder_path` indexes `os.listdir(<base>/<token>/ingest/programs)`
at `[0]`; the listing is passed in as `entries`.  `fetch_file_content`
dispatches on the filename suffix, resolves the path, and previews the first
five rows of an existing file; the filesystem state it consults (the
programs listing and the parsed content of each existing file) is passed in
as a `TokenFS`.
-/

/-- The Python exceptions the modelled helpers can raise. -/
inductive PyError
  | indexError
deriving DecidableEq

/-- `get_ingest_folder_path` (lines 176-180): `os.listdir(...)[0]` joined
onto the programs path; `[0]` raises `IndexError` on an empty listing and
takes the first entry otherwise. -/
def get_ingest_folder_path (tmpBasePath token : String) (entries : List String) :
    Except PyError String :=
  match entries with
  | [] => .error .indexError
  | programName :: _ =>
    .ok (tmpBasePath ++ "/" ++ token ++ "/ingest/programs/" ++ programName)

/-- A parsed CSV file: header and data rows. -/
structure CsvFile where
  header : List String
  rows : List (List String)
deriving DecidableEq

/-- The filesystem state `fetch_file_content` consults: the listing of
`<token>/ingest/programs` and the existing files, keyed by full path. -/
structure TokenFS where
  programEntries : List String
  files : List (String × CsvFile)
deriving DecidableEq

/-- `df.head().to_json(orient="records")`: each of the first five rows as
field-name/value pairs in header order. -/
def headRecords (file : CsvFile) : List (List (String × String)) :=
  (file.rows.take 5).map (fun r => file.header.zip r)

/-- `str.endswith`. -/
def endsWithSfx (s sfx : String) : Bool :=
  sfx.data.isSuffixOf s.data

/-- `filename.endswith("event.data.csv") or filename.endswith("event.grammar.csv")`
(line 195). -/
def hasEventSfx (filename : String) : Bool :=
  endsWithSfx filename "event.data.csv" || endsWithSfx filename "event.grammar.csv"

/-- `filename.endswith("dimension.data.csv") or filename.endswith("dimension.grammar.csv")`
(lines 197-199). -/
def hasDimensionSfx (filename : String) : Bool :=
  endsWithSfx filename "dimension.data.csv" || endsWithSfx filename "dimension.grammar.csv"

/-- `fetch_file_content` (lines 194-208): event-suffixed names resolve
through `get_ingest_folder_path`, dimension-suffixed names under
`ingest/dimensions`, anything else returns `None`; a resolved path that does
not exist returns `None`, an existing file is read and its first five rows
returned as records. -/
def fetch_file_content (tmpBasePath token : String) (fs : TokenFS)
    (filename : String) : Except PyError (Option (List (List (String × String)))) :=
  if hasEventSfx filename then
    match get_ingest_folder_path tmpBasePath token fs.programEntries with
    | .error e => .error e
    | .ok folder =>
      match fs.files.lookup (folder ++ "/" ++ filename) with
      | none => .ok none
      | some file => .ok (some (headRecords file))
  else if hasDimensionSfx filename then
    match fs.files.lookup
        (tmpBasePath ++ "/" ++ token ++ "/ingest/dimensions/" ++ filename) with
    | none => .ok none
    | some file => .ok (some (headRecords file))
  else .ok none

/-- The full path `fetch_file_content` consults for a filename, if any: the
resolved program folder for event-suffixed names (requiring a program
listing entry), the dimensions folder for dimension-suffixed names, nothing
otherwise. -/
def fetchTargetPath (tmpBasePath token : String) (fs : TokenFS)
    (filename : String) : Option String :=
  if hasEventSfx filename then
    match fs.programEntries with
    | [] => none
    | programName :: _ =>
      some ((tmpBasePath ++ "/" ++ token ++ "/ingest/programs/" ++ programName)
        ++ "/" ++ filename)
  else if hasDimensionSfx filename then
    some (tmpBasePath ++ "/" ++ token ++ "/ingest/dimensions/" ++ filename)
  else none

theorem fetch_eval_event (tmpBasePath token : String) {filename : String}
    {fs : TokenFS} {p : String} {rest : List String}
    (htrue : hasEventSfx filename = true) (hpe : fs.programEntries = p :: rest) :
    fetch_file_content tmpBasePath token fs filename =
      match fs.files.lookup
          ((tmpBasePath ++ "/" ++ token ++ "/ingest/programs/" ++ p)
            ++ "/" ++ filename) with
      | none => .ok none
      | some file => .ok (some (headRecords file)) := by
  unfold fetch_file_content get_ingest_folder_path
  rw [hpe, if_pos htrue]

theorem fetch_eval_dim (tmpBasePath token : String) {filename : String} (fs : TokenFS)
    (hev : hasEventSfx filename = false) (hdim : hasDimensionSfx filename = true) :
    fetch_file_content tmpBasePath token fs filename =
      match fs.files.lookup
          (tmpBasePath ++ "/" ++ token ++ "/ingest/dimensions/" ++ filename) with
      | none => .ok none
      | some file => .ok (some (headRecords file)) := by
  unfold fetch_file_content
  rw [if_neg (by rw [hev]; exact Bool.false_ne_true), if_pos hdim]

theorem fetch_eval_other (tmpBasePath token : String) {filename : String} (fs : TokenFS)
    (hev : hasEventSfx filename = false) (hdim : hasDimensionSfx filename = false) :
    fetch_file_content tmpBasePath token fs filename = .ok none := by
  unfold fetch_file_content
  rw [if_neg (by rw [hev]; exact Bool.false_ne_true),
    if_neg (by rw [hdim]; exact Bool.false_ne_true)]

end CsvParser

/-- C7 (counterexample): with two program directories listed,
`get_ingest_folder_path` does not raise: it silently returns the path of the
first listed program, refuting the claim that zero-or-more-than-one entries
raise `MultipleOrNoProgramsError` (an error class the code never
references). -/
theorem CsvParser.get_ingest_folder_path_two_programs :
    CsvParser.get_ingest_folder_path "/tmp" "tok" ["prog_a", "prog_b"]
        = Except.ok ("/tmp" ++ "/" ++ "tok" ++ "/ingest/programs/" ++ "prog_a") ∧
      ∀ e, CsvParser.get_ingest_folder_path "/tmp" "tok" ["prog_a", "prog_b"]
        ≠ Except.error e := by
  refine ⟨rfl, ?_⟩
  intro e h
  exact Except.noConfusion h

/-- C7 (amended): `get_ingest_folder_path` fails — with an `IndexError`, not
a `MultipleOrNoProgramsError` — exactly when the programs directory has zero
entries; with one or more entries it succeeds and returns the path of the
first listed program directory, so more than one entry is not rejected. -/
theorem CsvParser.get_ingest_folder_path_spec (tmpBasePath token : String) :
    CsvParser.get_ingest_folder_path tmpBasePath token [] = Except.error .indexError ∧
      ∀ programName rest,
        CsvParser.get_ingest_folder_path tmpBasePath token (programName :: rest)
          = Except.ok (tmpBasePath ++ "/" ++ token ++ "/ingest/programs/"
              ++ programName) :=
  ⟨rfl, fun _ _ => rfl⟩

/-- C8 (counterexample): `report-event.data.csv` carries a recognized suffix
and its target file does not exist (the filesystem is empty), yet
`fetch_file_content` raises `IndexError` — through the program-directory
resolution on the empty programs listing — instead of returning a
not-found result. -/
theorem CsvParser.fetch_file_content_raises :
    CsvParser.hasEventSfx "report-event.data.csv" = true ∧
      CsvParser.fetch_file_content "/tmp" "tok" ⟨[], []⟩ "report-event.data.csv"
        = Except.error .indexError :=
  ⟨by decide, rfl⟩

/-- C8 (amended): provided the programs listing has at least one entry, a
filename with no recognized suffix yields an empty result and no exception;
a recognized filename whose target file does not exist yields an empty
result; and an existing recognized file yields its first five rows as
field-name/value records; in all these cases nothing is raised.  (When the
programs listing is empty, an event-suffixed filename raises `IndexError`
from the program-directory resolution — see the counterexample.) -/
theorem CsvParser.fetch_file_content_spec (tmpBasePath token : String)
    (fs : CsvParser.TokenFS) (filename : String)
    (hprog : fs.programEntries ≠ []) :
    (∃ r, CsvParser.fetch_file_content tmpBasePath token fs filename = Except.ok r) ∧
      (CsvParser.fetchTargetPath tmpBasePath token fs filename = none →
        CsvParser.fetch_file_content tmpBasePath token fs filename = Except.ok none) ∧
      (∀ path, CsvParser.fetchTargetPath tmpBasePath token fs filename = some path →
        fs.files.lookup path = none →
        CsvParser.fetch_file_content tmpBasePath token fs filename = Except.ok none) ∧
      (∀ path file, CsvParser.fetchTargetPath tmpBasePath token fs filename = some path →
        fs.files.lookup path = some file →
        CsvParser.fetch_file_content tmpBasePath token fs filename
          = Except.ok (some ((file.rows.take 5).map (fun r => file.header.zip r)))) := by
  cases hpe : fs.programEntries with
  | nil => exact absurd hpe hprog
  | cons p rest =>
  by_cases hev : CsvParser.hasEventSfx filename = true
  · have heval := CsvParser.fetch_eval_event tmpBasePath token hev hpe
    have htgt : CsvParser.fetchTargetPath tmpBasePath token fs filename
        = some ((tmpBasePath ++ "/" ++ token ++ "/ingest/programs/" ++ p)
          ++ "/" ++ filename) := by
      unfold CsvParser.fetchTargetPath
      rw [if_pos hev, hpe]
    refine ⟨?_, ?_, ?_, ?_⟩
    · cases hlk : fs.files.lookup
          ((tmpBasePath ++ "/" ++ token ++ "/ingest/programs/" ++ p)
            ++ "/" ++ filename) with
      | none => exact ⟨none, by rw [heval, hlk]⟩
      | some file => exact ⟨some (CsvParser.headRecords file), by rw [heval, hlk]⟩
    · intro habs
      rw [htgt] at habs
      exact Option.noConfusion habs
    · intro path hpath hlk
      rw [htgt, Option.some.injEq] at hpath
      subst hpath
      rw [heval, hlk]
    · intro path file hpath hlk
      rw [htgt, Option.some.injEq] at hpath
      subst hpath
      rw [heval, hlk]
      rfl
  · rw [Bool.not_eq_true] at hev
    by_cases hdim : CsvParser.hasDimensionSfx filename = true
    · have heval := CsvParser.fetch_eval_dim tmpBasePath token fs hev hdim
      have htgt : CsvParser.fetchTargetPath tmpBasePath token fs filename
          = some (tmpBasePath ++ "/" ++ token ++ "/ingest/dimensions/" ++ filename) := by
        unfold CsvParser.fetchTargetPath
        rw [if_neg (by rw [hev]; exact Bool.false_ne_true), if_pos hdim]
      refine ⟨?_, ?_, ?_, ?_⟩
      · cases hlk : fs.files.lookup
            (tmpBasePath ++ "/" ++ token ++ "/ingest/dimensions/" ++ filename) with
        | none => exact ⟨none, by rw [heval, hlk]⟩
        | some file => exact ⟨some (CsvParser.headRecords file), by rw [heval, hlk]⟩
      · intro habs
        rw [htgt] at habs
        exact Option.noConfusion habs
      · intro path hpath hlk
        rw [htgt, Option.some.injEq] at hpath
        subst hpath
        rw [heval, hlk]
      · intro path file hpath hlk
        rw [htgt, Option.some.injEq] at hpath
        subst hpath
        rw [heval, hlk]
        rfl
    · rw [Bool.not_eq_true] at hdim
      have heval := CsvParser.fetch_eval_other tmpBasePath token fs hev hdim
      have htgt : CsvParser.fetchTargetPath tmpBasePath token fs filename = none := by
        unfold CsvParser.fetchTargetPath
        rw [if_neg (by rw [hev]; exact Bool.false_ne_true),
          if_neg (by rw [hdim]; exact Bool.false_ne_true)]
      refine ⟨⟨none, heval⟩, fun _ => heval, ?_, ?_⟩
      · intro path hpath hlk
        rw [htgt] at hpath
        exact Option.noConfusion hpath
      · intro path file hpath hlk
        rw [htgt] at hpath
        exact Option.noConfusion hpath

/-- Witness for C8 (amended): one program `p`, one existing dimension data
file with six rows; the preview returns its first five rows as records. -/
theorem CsvParser.fetch_file_content_spec_witness :
    (∃ r, CsvParser.fetch_file_content "/tmp" "tok"
        ⟨["p"], [("/tmp/tok/ingest/dimensions/name-dimension.data.csv",
          ⟨["name_id", "name"],
            [["1", "a"], ["2", "b"], ["3", "c"], ["4", "d"], ["5", "e"], ["6", "f"]]⟩)]⟩
        "name-dimension.data.csv" = Except.ok r) ∧
      (CsvParser.fetchTargetPath "/tmp" "tok"
          ⟨["p"], [("/tmp/tok/ingest/dimensions/name-dimension.data.csv",
            ⟨["name_id", "name"],
              [["1", "a"], ["2", "b"], ["3", "c"], ["4", "d"], ["5", "e"], ["6", "f"]]⟩)]⟩
          "name-dimension.data.csv" = none →
        CsvParser.fetch_file_content "/tmp" "tok"
          ⟨["p"], [("/tmp/tok/ingest/dimensions/name-dimension.data.csv",
            ⟨["name_id", "name"],
              [["1", "a"], ["2", "b"], ["3", "c"], ["4", "d"], ["5", "e"], ["6", "f"]]⟩)]⟩
          "name-dimension.data.csv" = Except.ok none) ∧
      (∀ path, CsvParser.fetchTargetPath "/tmp" "tok"
          ⟨["p"], [("/tmp/tok/ingest/dimensions/name-dimension.data.csv",
            ⟨["name_id", "name"],
              [["1", "a"], ["2", "b"], ["3", "c"], ["4", "d"], ["5", "e"], ["6", "f"]]⟩)]⟩
          "name-dimension.data.csv" = some path →
        ([("/tmp/tok/ingest/dimensions/name-dimension.data.csv",
          (⟨["name_id", "name"],
            [["1", "a"], ["2", "b"], ["3", "c"], ["4", "d"], ["5", "e"], ["6", "f"]]⟩
            : CsvParser.CsvFile))].lookup path) = none →
        CsvParser.fetch_file_content "/tmp" "tok"
          ⟨["p"], [("/tmp/tok/ingest/dimensions/name-dimension.data.csv",
            ⟨["name_id", "name"],
              [["1", "a"], ["2", "b"], ["3", "c"], ["4", "d"], ["5", "e"], ["6", "f"]]⟩)]⟩
          "name-dimension.data.csv" = Except.ok none) ∧
      (∀ path file, CsvParser.fetchTargetPath "/tmp" "tok"
          ⟨["p"], [("/tmp/tok/ingest/dimensions/name-dimension.data.csv",
            ⟨["name_id", "name"],
              [["1", "a"], ["2", "b"], ["3", "c"], ["4", "d"], ["5", "e"], ["6", "f"]]⟩)]⟩
          "name-dimension.data.csv" = some path →
        ([("/tmp/tok/ingest/dimensions/name-dimension.data.csv",
          (⟨["name_id", "name"],
            [["1", "a"], ["2", "b"], ["3", "c"], ["4", "d"], ["5", "e"], ["6", "f"]]⟩
            : CsvParser.CsvFile))].lookup path) = some file →
        CsvParser.fetch_file_content "/tmp" "tok"
          ⟨["p"], [("/tmp/tok/ingest/dimensions/name-dimension.data.csv",
            ⟨["name_id", "name"],
              [["1", "a"], ["2", "b"], ["3", "c"], ["4", "d"], ["5", "e"], ["6", "f"]]⟩)]⟩
          "name-dimension.data.csv"
          = Except.ok (some ((file.rows.take 5).map (fun r => file.header.zip r)))) :=
  CsvParser.fetch_file_content_spec "/tmp" "tok"
    ⟨["p"], [("/tmp/tok/ingest/dimensions/name-dimension.data.csv",
      ⟨["name_id", "name"],
        [["1", "a"], ["2", "b"], ["3", "c"], ["4", "d"], ["5", "e"], ["6", "f"]]⟩)]⟩
    "name-dimension.data.csv" (by decide)

namespace CsvParser

/-! ## Manifest (`write_config_to_ingest_folder`, lines 142-168)

The function serializes `config_template` — a dictionary built from only the
program name and description — to `config.json`.  JSON documents are
modelled by `JsonValue`; note that the source writes the *string* "true",
not a boolean, for `onlyCreateWhitelisted` and `shouldIngestToDB`.
-/

/-- A JSON value as the manifest uses them: strings, arrays, objects. -/
inductive JsonValue
  | str (s : String)
  | arr (elems : List JsonValue)
  | obj (fields : List (String × JsonValue))

/-- Field lookup in a JSON object. -/
def jGet (v : JsonValue) (key : String) : Option JsonValue :=
  match v with
  | .obj fields => fields.lookup key
  | _ => none

/-- The `config_template` dictionary of `write_config_to_ingest_folder`
(lines 145-163), verbatim. -/
def write_config_to_ingest_folder (program_name program_description : String) :
    JsonValue :=
  .obj [
    ("globals", .obj [("onlyCreateWhitelisted", .str "true")]),
    ("dimensions", .obj [
      ("namespace", .str "dimensions"),
      ("fileNameFormat", .str "${dimensionName}.${index}.dimensions.data.csv"),
      ("input", .obj [("files", .str "./ingest/dimensions")])]),
    ("programs", .arr [
      .obj [
        ("name", .str program_name),
        ("namespace", .str program_name),
        ("description", .str program_description),
        ("shouldIngestToDB", .str "true"),
        ("input", .obj [("files", .str ("./ingest/programs/" ++ program_name))]),
        ("./output", .obj [("location", .str ("./output/programs/" ++ program_name))]),
        ("dimensions", .obj [("whitelisted", .arr []), ("blacklisted", .arr [])])]])]

/-! ## Metric/dimension routing (`generate_ingest_files`, lines 70-77)

The loop appends `column_mapping[updated_col_name]` — which is
`clean_column_name(updated_col_name)` by construction of the mapping at
line 32 — to `metrics` when the entry's `metric` flag is true and to
`dimensions` in every other case; the `dimension` flag is never consulted.
-/

/-- One iteration of the loop at lines 72-77. -/
def routeStep (acc : List String × List String) (entry : String × ColumnMeta) :
    List String × List String :=
  if entry.2.metric then (acc.1 ++ [clean_column_name entry.2.updated_col_name], acc.2)
  else (acc.1, acc.2 ++ [clean_column_name entry.2.updated_col_name])

/-- The loop at lines 70-77 of `generate_ingest_files`: build the `metrics`
and `dimensions` name lists from the column metadata. -/
def routeColumns (metadata : List (String × ColumnMeta)) :
    List String × List String :=
  metadata.foldl routeStep ([], [])

theorem routeColumns_go (l : List (String × ColumnMeta)) :
    ∀ ms ds : List String,
      l.foldl routeStep (ms, ds)
        = (ms ++ (l.filter (fun e => e.2.metric)).map
              (fun e => clean_column_name e.2.updated_col_name),
           ds ++ (l.filter (fun e => !e.2.metric)).map
              (fun e => clean_column_name e.2.updated_col_name)) := by
  induction l with
  | nil => intro ms ds; simp
  | cons e l ih =>
    intro ms ds
    rw [List.foldl_cons]
    by_cases he : e.2.metric
    · rw [show routeStep (ms, ds) e
          = (ms ++ [clean_column_name e.2.updated_col_name], ds) from by
            unfold routeStep; rw [if_pos he]]
      rw [ih]
      simp [List.filter_cons, he]
    · rw [show routeStep (ms, ds) e
          = (ms, ds ++ [clean_column_name e.2.updated_col_name]) from by
            unfold routeStep; rw [if_neg he]]
      rw [ih]
      simp [List.filter_cons, he]

end CsvParser

/-- C9: the manifest produced by `write_config_to_ingest_folder` is a
function of only the program name and the program description — like the
source function, the model takes nothing else, in particular not the
dimension or metric lists actually produced: it always carries
`globals.onlyCreateWhitelisted` as the string literal `"true"`, the
dimension file-name pattern
`${dimensionName}.${index}.dimensions.data.csv`, and a programs list holding
exactly one program whose `whitelisted` and `blacklisted` dimension lists
are empty. -/
theorem CsvParser.write_config_spec (program_name program_description : String) :
    CsvParser.jGet
        (CsvParser.write_config_to_ingest_folder program_name program_description)
        "globals"
        = some (.obj [("onlyCreateWhitelisted", .str "true")]) ∧
      (∃ dims, CsvParser.jGet
          (CsvParser.write_config_to_ingest_folder program_name program_description)
          "dimensions" = some dims ∧
        CsvParser.jGet dims "fileNameFormat"
          = some (.str "${dimensionName}.${index}.dimensions.data.csv")) ∧
      (∃ prog, CsvParser.jGet
          (CsvParser.write_config_to_ingest_folder program_name program_description)
          "programs" = some (.arr [prog]) ∧
        CsvParser.jGet prog "name" = some (.str program_name) ∧
        CsvParser.jGet prog "description" = some (.str program_description) ∧
        ∃ progDims, CsvParser.jGet prog "dimensions" = some progDims ∧
          CsvParser.jGet progDims "whitelisted" = some (.arr []) ∧
          CsvParser.jGet progDims "blacklisted" = some (.arr [])) :=
  ⟨rfl, ⟨_, rfl, rfl⟩, ⟨_, rfl, rfl, rfl, ⟨_, rfl, rfl, rfl⟩⟩⟩

/-- C10: the routing loop of `generate_ingest_files` routes every
column-metadata entry by its `metric` flag alone: an entry with
`metric = true` goes to the metrics list, every other entry — including one
whose `metric` and `dimension` flags are both false — goes to the dimensions
list, and rewriting every entry's `dimension` flag arbitrarily leaves both
output lists unchanged (the flag is never read). -/
theorem CsvParser.routeColumns_spec (metadata : List (String × CsvParser.ColumnMeta)) :
    (CsvParser.routeColumns metadata).1
        = (metadata.filter (fun e => e.2.metric)).map
            (fun e => CsvParser.clean_column_name e.2.updated_col_name) ∧
      (CsvParser.routeColumns metadata).2
        = (metadata.filter (fun e => !e.2.metric)).map
            (fun e => CsvParser.clean_column_name e.2.updated_col_name) ∧
      ∀ g : String × CsvParser.ColumnMeta → Bool,
        CsvParser.routeColumns (metadata.map (fun e =>
            (e.1, ⟨e.2.updated_col_name, e.2.metric, g e⟩)))
          = CsvParser.routeColumns metadata := by
  have hgo := CsvParser.routeColumns_go metadata [] []
  refine ⟨?_, ?_, ?_⟩
  · rw [CsvParser.routeColumns, hgo]
    rfl
  · rw [CsvParser.routeColumns, hgo]
    rfl
  · intro g
    have hmapped := CsvParser.routeColumns_go
      (metadata.map (fun e => (e.1, ⟨e.2.updated_col_name, e.2.metric, g e⟩))) [] []
    rw [CsvParser.routeColumns, hmapped, CsvParser.routeColumns, hgo]
    rw [List.filter_map, List.filter_map, List.map_map, List.map_map]
    rfl
